import Mathlib

/-!
Shallow embedding of the time-accrual core of `minutecounter` (src/src/app.jsx):
the game-clock tick loop, the period ledger, per-player accrual, the roster and
period reshaping effects, the fairness metrics and the standalone overtime clock.
Wall-clock milliseconds are modelled as rationals (`performance.now()` returns
fractional milliseconds); configuration counts are naturals produced by the
clamped `parseInt` inputs.  A separate small model with an explicit NaN value
covers the clock-anomaly behaviour of one tick.
-/

set_option linter.unusedVariables false

namespace PlayingTime

/-- Game format (app.jsx line 63): the string "Quarters" or "Halves". -/
inductive Format where
  | Quarters
  | Halves
deriving DecidableEq, Repr

/-- Line 71: `numPeriods = format === "Quarters" ? 4 : 2`. -/
def Format.numPeriods : Format → ℕ
  | .Quarters => 4
  | .Halves => 2

/-- `Math.min` on two finite doubles, written so that it computes by kernel reduction. -/
def mathMin (a b : ℚ) : ℚ := if a ≤ b then a else b

/-- `Math.max` on two finite doubles, written so that it computes by kernel reduction. -/
def mathMax (a b : ℚ) : ℚ := if a ≤ b then b else a

/-- Line 37: `clamp = (n, min, max) => Math.min(max, Math.max(min, n))`, rational version. -/
def clampQ (n lo hi : ℚ) : ℚ := mathMin hi (mathMax lo n)

/-- Line 37 clamp for the integer config inputs (`parseInt` values). -/
def clampI (n lo hi : ℤ) : ℤ := min hi (max lo n)

/-- A roster entry (lines 80-86): stable id, display name, on-court flag, total accrued
milliseconds, and one accrued-milliseconds slot per period. -/
structure Player where
  id : ℕ
  name : String
  active : Bool
  totalMs : ℚ
  periodMs : List ℚ
deriving DecidableEq, Repr, Inhabited

/-- Lines 44-56: the default roster names. -/
def DEFAULT_NAMES : List String :=
  ["Stella", "Lizzy", "Gisella", "Tory", "Esther", "Kaitlin", "Sadie", "Brigit",
   "Sofia", "Scarlett", "Empress"]

/-- Lines 82 and 217: `DEFAULT_NAMES[i] ?? "Player " + (i+1)`. -/
def defaultName (i : ℕ) : String := DEFAULT_NAMES.getD i ("Player " ++ toString (i + 1))

/-- The mutable state of one `PlayingTimeApp` session: configuration, the period ledger
(`periodElapsedMs`), the roster, the running flag, the error toast, and the overtime clock.
The timeout counters are unrelated to every claim and are omitted. -/
structure GameState where
  numPlayers : ℕ
  onCourt : ℕ
  format : Format
  periodMinutes : ℕ
  currentPeriod : ℕ
  ledger : List ℚ
  players : List Player
  running : Bool
  errorToast : Option String
  otElapsedMs : ℚ
  otRunning : Bool
deriving DecidableEq, Repr

/-- Line 72: `periodLengthMs = periodMinutes * 60 * 1000`. -/
def GameState.periodLengthMs (s : GameState) : ℚ := (s.periodMinutes : ℚ) * 60 * 1000

/-- Number of periods of the current format (line 71). -/
def GameState.nPeriods (s : GameState) : ℕ := s.format.numPeriods

/-- Line 106: `OT_LENGTH_MS = 3 * 60 * 1000`. -/
def OT_LENGTH_MS : ℚ := 3 * 60 * 1000

/-- Lines 281 and 315: `players.filter((p) => p.active).length`. -/
def activeCount (s : GameState) : ℕ := (s.players.filter (fun p => p.active)).length

/-- One firing of the main timer loop (lines 231-259) with wall-clock delta `d` ms.  The
interval only exists while `running` is true.  `apply = Math.max(0, Math.min(delta, remaining))`
(line 242); the current ledger slot gains `apply` (line 243); when `apply > 0` every active
player gains `apply` on `totalMs` and on `periodMs[currentPeriod]` (lines 244-253); the engine
stops exactly when the updated slot reaches the period length (line 254). -/
def tick (s : GameState) (d : ℚ) : GameState :=
  if s.running then
    let p := s.currentPeriod
    let remaining := s.periodLengthMs - s.ledger.getD p 0
    let applyMs := mathMax 0 (mathMin d remaining)
    let ledger1 := s.ledger.set p (s.ledger.getD p 0 + applyMs)
    let players1 :=
      if 0 < applyMs then
        s.players.map (fun pl =>
          if pl.active then
            { pl with totalMs := pl.totalMs + applyMs,
                      periodMs := pl.periodMs.set p (pl.periodMs.getD p 0 + applyMs) }
          else pl)
      else s.players
    let running1 := if s.periodLengthMs ≤ ledger1.getD p 0 then false else s.running
    { s with ledger := ledger1, players := players1, running := running1 }
  else s

/-- The start/pause buttons (lines 500 and 997): `setRunning((r) => !r)`, with no guard. -/
def startPause (s : GameState) : GameState := { s with running := !s.running }

/-- Lines 303-306: `nextPeriod` pauses and increments the period index, clamped to the last. -/
def nextPeriod (s : GameState) : GameState :=
  { s with running := false, currentPeriod := min (s.currentPeriod + 1) (s.nPeriods - 1) }

/-- A period tab click (line 560): `setCurrentPeriod(i)`; a tab exists for each `i < numPeriods`. -/
def selectPeriod (s : GameState) (i : ℕ) : GameState :=
  if i < s.nPeriods then { s with currentPeriod := i } else s

/-- Lines 285-302: `resetAll` pauses, returns to period 0, zeroes the ledger, zeroes every
player keeping identity and name and re-marking the first `onCourt` slots active, and resets
the overtime clock. -/
def resetAll (s : GameState) : GameState :=
  { s with running := false,
           currentPeriod := 0,
           ledger := List.replicate s.nPeriods 0,
           players := (List.range s.players.length).map (fun i =>
             let pl := s.players.getD i default
             { pl with active := decide (i < s.onCourt), totalMs := 0,
                       periodMs := List.replicate s.nPeriods 0 }),
           otElapsedMs := 0,
           otRunning := false }

/-- The reshape of one elapsed-time array in the `numPeriods` effect (lines 193-206):
`next = Array(n).fill(0)` then `next[i] = prev[i]` for `i < min(prev.length, n)`; index `i` of
the result is `prev[i]` when present and `0` otherwise. -/
def reshapeArr (n : ℕ) (l : List ℚ) : List ℚ := (List.range n).map (fun i => l.getD i 0)

/-- The format select (line 893) together with the `numPeriods` effect it triggers
(lines 192-208): reshape the ledger and every player period array, and clamp the current
period index into the new range (`clamp(idx, 0, numPeriods - 1)`). -/
def setFormat (s : GameState) (f : Format) : GameState :=
  let n := f.numPeriods
  { s with format := f,
           ledger := reshapeArr n s.ledger,
           players := s.players.map (fun pl => { pl with periodMs := reshapeArr n pl.periodMs }),
           currentPeriod := min (n - 1) (max 0 s.currentPeriod) }

/-- The minutes-per-period input (lines 902-911): `setPeriodMinutes(clamp(parseInt(v), 1, 90))`.
No effect rescales the ledger or the player arrays. -/
def setPeriodMinutes (s : GameState) (m : ℤ) : GameState :=
  { s with periodMinutes := (clampI m 1 90).toNat }

/-- A player appended when the roster grows (lines 214-222). -/
def newPlayer (s : GameState) (i : ℕ) : Player :=
  { id := i + 1, name := defaultName i, active := decide (i < s.onCourt),
    totalMs := 0, periodMs := List.replicate s.nPeriods 0 }

/-- The player-count input (lines 864-874, `clamp(parseInt(v), 1, 100)`) together with the
effects it triggers: clamping `onCourt` down to `numPlayers` (lines 188-190) and growing by
appending fresh zeroed players or shrinking by truncation (lines 210-228). -/
def setNumPlayers (s : GameState) (n : ℤ) : GameState :=
  let np := (clampI n 1 100).toNat
  let players1 :=
    if s.players.length < np then
      s.players ++ (List.range' s.players.length (np - s.players.length)).map (newPlayer s)
    else
      s.players.take np
  { s with numPlayers := np, onCourt := min s.onCourt np, players := players1 }

/-- The on-court input (lines 875-888): `setOnCourt(clamp(parseInt(v), 1, numPlayers))`. -/
def setOnCourt (s : GameState) (n : ℤ) : GameState :=
  { s with onCourt := (clampI n 1 s.numPlayers).toNat }

/-- The capacity message of line 319. -/
def capacityMsg (n : ℕ) : String :=
  "Only " ++ toString n ++ " players can be on court. Remove someone first!"

/-- Lines 313-328: activating a player while the on-court list is already full is rejected with
an error toast and no state change; every other toggle flips the flag of that player. -/
def toggleActive (s : GameState) (idx : ℕ) : GameState :=
  if h : idx < s.players.length then
    let pl := s.players.get ⟨idx, h⟩
    if pl.active = false ∧ s.onCourt ≤ activeCount s then
      { s with errorToast := some (capacityMsg s.onCourt) }
    else
      { s with players := s.players.set idx { pl with active := !pl.active } }
  else s

/-- The order used by `autoFill`.  The JS comparator (line 339) sorts the pairs `{i, totalMs}`
by `totalMs`; `Array.prototype.sort` is stable and the input indices are strictly increasing,
so the stable result is exactly the sort by `totalMs` with ties broken by the original index. -/
def byTimeLE (a b : ℕ × ℚ) : Prop := a.2 < b.2 ∨ (a.2 = b.2 ∧ a.1 ≤ b.1)

instance : DecidableRel byTimeLE := fun a b => by unfold byTimeLE; infer_instance

instance : IsTotal (ℕ × ℚ) byTimeLE := by
  constructor
  intro a b
  unfold byTimeLE
  rcases lt_trichotomy a.2 b.2 with h | h | h
  · exact Or.inl (Or.inl h)
  · rcases Nat.le_total a.1 b.1 with h1 | h1
    · exact Or.inl (Or.inr ⟨h, h1⟩)
    · exact Or.inr (Or.inr ⟨h.symm, h1⟩)
  · exact Or.inr (Or.inl h)

instance : IsTrans (ℕ × ℚ) byTimeLE := by
  constructor
  intro a b c hab hbc
  unfold byTimeLE at *
  rcases hab with h1 | ⟨h1, h1i⟩
  · rcases hbc with h2 | ⟨h2, h2i⟩
    · exact Or.inl (h1.trans h2)
    · exact Or.inl (h2 ▸ h1)
  · rcases hbc with h2 | ⟨h2, h2i⟩
    · exact Or.inl (h1 ▸ h2)
    · exact Or.inr ⟨h1.trans h2, h1i.trans h2i⟩

/-- The pair list of line 338: `players.map((p, i) => ({ i, totalMs: p.totalMs }))`. -/
def sortPairs (s : GameState) : List (ℕ × ℚ) :=
  (List.range s.players.length).map (fun i => (i, (s.players.getD i default).totalMs))

/-- The `byTime` constant of lines 337-339: the pair list stably sorted by `totalMs`. -/
def byTime (s : GameState) : List (ℕ × ℚ) := List.insertionSort byTimeLE (sortPairs s)

/-- The `toActivate` set of line 340: the first `onCourt` indices of the sorted order. -/
def toActivate (s : GameState) : List ℕ := ((byTime s).take s.onCourt).map Prod.fst

/-- Lines 336-344: `autoFill` sorts the indices by accrued total time (stably), keeps the
first `onCourt` of them, and sets every active flag to membership in that set. -/
def autoFill (s : GameState) : GameState :=
  { s with players := (List.range s.players.length).map (fun i =>
      let pl := s.players.getD i default
      { pl with active := (toActivate s).contains i }) }

/-- One firing of the overtime timer (lines 119-130) with wall-clock delta `d` ms:
`setOtElapsedMs((prev) => Math.min(OT_LENGTH_MS, prev + delta))`.  Note there is no lower
clamp, unlike the main timer loop. -/
def otTick (s : GameState) (d : ℚ) : GameState :=
  if s.otRunning then { s with otElapsedMs := mathMin OT_LENGTH_MS (s.otElapsedMs + d) } else s

/-- The OT start/pause button (line 832): `setOtRunning((r) => !r)`. -/
def otToggle (s : GameState) : GameState := { s with otRunning := !s.otRunning }

/-- The OT reset button (lines 838-841). -/
def otReset (s : GameState) : GameState := { s with otRunning := false, otElapsedMs := 0 }

/-- Line 262-265: `gameElapsedMs = periodElapsedMs.reduce((a, b) => a + b, 0)`. -/
def gameElapsedMs (s : GameState) : ℚ := s.ledger.sum

/-- Lines 266-269: `idealMsSoFar = numPlayers ? gameElapsedMs * (onCourt / numPlayers) : 0`. -/
def idealMsSoFar (s : GameState) : ℚ :=
  if s.numPlayers ≠ 0 then gameElapsedMs s * ((s.onCourt : ℚ) / (s.numPlayers : ℚ)) else 0

/-- Line 270: `fullGameMs = numPeriods * periodLengthMs`. -/
def fullGameMs (s : GameState) : ℚ := (s.nPeriods : ℚ) * s.periodLengthMs

/-- Lines 271-274: `goalPerPlayerFullGameMs = numPlayers ? (fullGameMs * onCourt) / numPlayers : 0`. -/
def goalPerPlayerFullGameMs (s : GameState) : ℚ :=
  if s.numPlayers ≠ 0 then fullGameMs s * (s.onCourt : ℚ) / (s.numPlayers : ℚ) else 0

/-- The initial roster entry `i` (lines 79-87): first `onCourt = 5` slots active. -/
def initPlayer (i : ℕ) : Player :=
  { id := i + 1, name := defaultName i, active := decide (i < 5), totalMs := 0,
    periodMs := List.replicate 4 0 }

/-- The initial state (lines 61-117): 11 default players, 5 on court, 8-minute quarters. -/
def initState : GameState :=
  { numPlayers := 11, onCourt := 5, format := .Quarters, periodMinutes := 8,
    currentPeriod := 0, ledger := List.replicate 4 0,
    players := (List.range 11).map initPlayer, running := false, errorToast := none,
    otElapsedMs := 0, otRunning := false }

/-- The user-visible operations of the session. -/
inductive Step where
  | tick (d : ℚ)
  | startPause
  | nextPeriod
  | selectPeriod (i : ℕ)
  | resetAll
  | setFormat (f : Format)
  | setPeriodMinutes (m : ℤ)
  | setNumPlayers (n : ℤ)
  | setOnCourt (n : ℤ)
  | toggleActive (idx : ℕ)
  | autoFill
  | otTick (d : ℚ)
  | otToggle
  | otReset
deriving DecidableEq, Repr

/-- The transition function: dispatch one operation. -/
def stepFn (s : GameState) : Step → GameState
  | .tick d => tick s d
  | .startPause => startPause s
  | .nextPeriod => nextPeriod s
  | .selectPeriod i => selectPeriod s i
  | .resetAll => resetAll s
  | .setFormat f => setFormat s f
  | .setPeriodMinutes m => setPeriodMinutes s m
  | .setNumPlayers n => setNumPlayers s n
  | .setOnCourt n => setOnCourt s n
  | .toggleActive idx => toggleActive s idx
  | .autoFill => autoFill s
  | .otTick d => otTick s d
  | .otToggle => otToggle s
  | .otReset => otReset s

/-- States reachable from the initial state using only steps allowed by `P`. -/
inductive ReachW (P : GameState → Step → Prop) : GameState → Prop where
  | init : ReachW P initState
  | next {s : GameState} (a : Step) (hs : ReachW P s) (ha : P s a) : ReachW P (stepFn s a)

/-- States reachable from the initial state by any sequence of operations. -/
def Reach (s : GameState) : Prop := ReachW (fun _ _ => True) s

/-- Traces in which the minutes-per-period setting is never decreased. -/
def noPMShrink : GameState → Step → Prop := fun s a =>
  ∀ m, a = Step.setPeriodMinutes m → (s.periodMinutes : ℤ) ≤ clampI m 1 90

/-- Traces in which a format change only ever drops periods that hold no accrued player time. -/
def fmtSafe : GameState → Step → Prop := fun s a =>
  ∀ f, a = Step.setFormat f → ∀ pl ∈ s.players, (pl.periodMs.drop f.numPeriods).sum = 0

/-! ### JS number semantics of one tick (for clock-anomaly behaviour)

The state-machine model above uses rationals, which is faithful for every real-valued
wall-clock delta.  The tick body (lines 239-256) is re-embedded here over a type with an
explicit NaN value, following IEEE/JS semantics: arithmetic propagates NaN, `Math.min` and
`Math.max` return NaN when an argument is NaN, and every comparison with NaN is false. -/

/-- A JS double restricted to the values this program can produce: a rational or NaN. -/
inductive JsNum where
  | nan
  | val (q : ℚ)
deriving DecidableEq, Repr

/-- JS addition: NaN propagates. -/
def jsAdd : JsNum → JsNum → JsNum
  | .val a, .val b => .val (a + b)
  | _, _ => .nan

/-- JS subtraction: NaN propagates. -/
def jsSub : JsNum → JsNum → JsNum
  | .val a, .val b => .val (a - b)
  | _, _ => .nan

/-- `Math.min`: NaN when either argument is NaN. -/
def jsMin : JsNum → JsNum → JsNum
  | .val a, .val b => .val (mathMin a b)
  | _, _ => .nan

/-- `Math.max`: NaN when either argument is NaN. -/
def jsMax : JsNum → JsNum → JsNum
  | .val a, .val b => .val (mathMax a b)
  | _, _ => .nan

/-- The comparison `x >= c` of line 254: false when `x` is NaN. -/
def jsGe (x : JsNum) (c : ℚ) : Bool :=
  match x with
  | .val a => decide (c ≤ a)
  | .nan => false

/-- The tick body of lines 239-256 over JS numbers: ledger slots are JS numbers, `p` is the
current period, `len` the period length, `d` the observed delta.  Returns the new ledger and
players.  The player fan-out branch runs only when `apply > 0`, which is false for NaN. -/
def jsTick (len : ℚ) (p : ℕ) (ledger : List JsNum) (players : List Player) (d : JsNum) :
    List JsNum × List Player :=
  let remaining := jsSub (.val len) (ledger.getD p (.val 0))
  let applyMs := jsMax (.val 0) (jsMin d remaining)
  let ledger1 := ledger.set p (jsAdd (ledger.getD p (.val 0)) applyMs)
  let players1 :=
    match applyMs with
    | .val a =>
      if 0 < a then
        players.map (fun pl =>
          if pl.active then
            { pl with totalMs := pl.totalMs + a,
                      periodMs := pl.periodMs.set p (pl.periodMs.getD p 0 + a) }
          else pl)
      else players
    | .nan => players
  (ledger1, players1)


/-! ### Structural invariant over reachable states -/

/-- Shape and sign facts every reachable state satisfies: the current period index is in
range, every player has one period slot per period, and all accrued slots are non-negative. -/
def WF (s : GameState) : Prop :=
  s.currentPeriod < s.nPeriods ∧
  (∀ pl ∈ s.players, pl.periodMs.length = s.nPeriods) ∧
  (∀ pl ∈ s.players, ∀ x ∈ pl.periodMs, 0 ≤ x)


/-! ### List helper lemmas -/

lemma mathMin_eq (a b : ℚ) : mathMin a b = min a b := by rw [mathMin, min_def]

lemma mathMax_eq (a b : ℚ) : mathMax a b = max a b := by rw [mathMax, max_def]

lemma list_set_getD_self {α : Type} (l : List α) (i : ℕ) (d : α) :
    l.set i (l.getD i d) = l := by
  induction l generalizing i with
  | nil => simp
  | cons x xs ih =>
    cases i with
    | zero => simp [List.getD]
    | succ n => simp only [List.set, List.getD_cons_succ]; rw [ih]

lemma list_getD_set_eq {α : Type} (l : List α) (i : ℕ) (a d : α) (h : i < l.length) :
    (l.set i a).getD i d = a := by
  rw [List.getD_eq_getElem _ _ (by simpa using h)]
  simp [List.getElem_set, h]

lemma list_getD_set_ne {α : Type} (l : List α) {i j : ℕ} (a d : α) (h : j ≠ i) :
    (l.set i a).getD j d = l.getD j d := by
  simp [List.getD_eq_getD_get?, List.get?_eq_getElem?, List.getElem?_set_ne (Ne.symm h)]

lemma list_sum_set_add (l : List ℚ) (i : ℕ) (a : ℚ) (h : i < l.length) :
    (l.set i (l.getD i 0 + a)).sum = l.sum + a := by
  induction l generalizing i with
  | nil => simp at h
  | cons x xs ih =>
    cases i with
    | zero => simp [List.getD]; ring
    | succ n =>
      simp only [List.set, List.getD_cons_succ, List.sum_cons]
      rw [ih n (by simpa using h)]
      ring

lemma list_getD_mem {α : Type} (l : List α) (i : ℕ) (d : α) (h : i < l.length) :
    l.getD i d ∈ l := by
  rw [List.getD_eq_getElem l d h]
  exact List.getElem_mem h

lemma list_getD_nonneg (l : List ℚ) (h : ∀ x ∈ l, 0 ≤ x) (i : ℕ) : 0 ≤ l.getD i 0 := by
  by_cases hi : i < l.length
  · exact h _ (list_getD_mem l i 0 hi)
  · rw [List.getD_eq_default _ _ (by omega)]

lemma list_getD_replicate (n i : ℕ) : (List.replicate n (0 : ℚ)).getD i 0 = 0 := by
  by_cases hi : i < n
  · rw [List.getD_eq_getElem _ _ (by simpa using hi)]
    exact List.getElem_replicate 0 _
  · rw [List.getD_eq_default _ _ (by simpa using hi)]

lemma reshapeArr_length (n : ℕ) (l : List ℚ) : (reshapeArr n l).length = n := by
  simp [reshapeArr]

lemma reshapeArr_getD_lt (n i : ℕ) (l : List ℚ) (h : i < n) :
    (reshapeArr n l).getD i 0 = l.getD i 0 := by
  rw [List.getD_eq_getElem _ _ (by simpa [reshapeArr_length] using h)]
  simp [reshapeArr]

lemma reshapeArr_getD_ge (n i : ℕ) (l : List ℚ) (h : n ≤ i) :
    (reshapeArr n l).getD i 0 = 0 := by
  rw [List.getD_eq_default _ _ (by simpa [reshapeArr_length] using h)]

lemma reshapeArr_mem (n : ℕ) (l : List ℚ) {x : ℚ} (h : x ∈ reshapeArr n l) :
    x ∈ l ∨ x = 0 := by
  simp only [reshapeArr, List.mem_map, List.mem_range] at h
  obtain ⟨i, hi, hx⟩ := h
  by_cases hil : i < l.length
  · exact Or.inl (hx ▸ list_getD_mem l i 0 hil)
  · right
    rw [← hx, List.getD_eq_default _ _ (by omega)]

lemma reshapeArr_sum (n : ℕ) (l : List ℚ) : (reshapeArr n l).sum = (l.take n).sum := by
  induction n with
  | zero => simp [reshapeArr]
  | succ m ih =>
    have hsplit : reshapeArr (m + 1) l = reshapeArr m l ++ [l.getD m 0] := by
      simp [reshapeArr, List.range_succ]
    rw [hsplit, List.sum_append, ih]
    by_cases hm : m < l.length
    · rw [List.sum_take_succ l m hm, List.getD_eq_getElem l 0 hm]
      simp
    · rw [List.getD_eq_default _ _ (by omega), List.take_of_length_le (by omega),
        List.take_of_length_le (by omega)]
      simp

lemma list_sum_take_le (l : List ℚ) (n : ℕ) (h : ∀ x ∈ l, 0 ≤ x) :
    (l.take n).sum ≤ l.sum := by
  have hd : 0 ≤ (l.drop n).sum :=
    List.sum_nonneg (fun x hx => h x (List.mem_of_mem_drop hx))
  have := List.sum_take_add_sum_drop l n
  linarith

/-- The number of periods is positive for both formats. -/
lemma numPeriods_pos (f : Format) : 0 < f.numPeriods := by cases f <;> decide

lemma wf_of_eq_fields {s t : GameState} (h : WF s) (hc : t.currentPeriod = s.currentPeriod)
    (hf : t.format = s.format) (hp : t.players = s.players) : WF t := by
  obtain ⟨h1, h2, h3⟩ := h
  refine ⟨?_, ?_, ?_⟩
  · rw [GameState.nPeriods, hf, hc]; exact h1
  · rw [hp, GameState.nPeriods, hf]; exact h2
  · rw [hp]; exact h3

lemma wf_tick (s : GameState) (d : ℚ) (h : WF s) : WF (tick s d) := by
  obtain ⟨h1, h2, h3⟩ := h
  simp only [tick, mathMin_eq, mathMax_eq]
  split
  · refine ⟨h1, ?_, ?_⟩
    · intro pl hpl
      dsimp only at hpl ⊢
      split at hpl
      · obtain ⟨pl0, hpl0, rfl⟩ := List.mem_map.mp hpl
        by_cases hact : pl0.active
        · simp only [if_pos hact, List.length_set]
          exact h2 pl0 hpl0
        · simp only [if_neg hact]
          exact h2 pl0 hpl0
      · exact h2 pl hpl
    · intro pl hpl x hx
      dsimp only at hpl
      split at hpl
      · next happly =>
        obtain ⟨pl0, hpl0, rfl⟩ := List.mem_map.mp hpl
        by_cases hact : pl0.active
        · simp only [if_pos hact] at hx
        -- x is an old entry of pl0 or the updated slot value
          rcases List.mem_or_eq_of_mem_set hx with hold | hnew
          · exact h3 pl0 hpl0 x hold
          · have hge : 0 ≤ pl0.periodMs.getD s.currentPeriod 0 :=
              list_getD_nonneg _ (h3 pl0 hpl0) _
            have hap : (0 : ℚ) ≤ max 0 (min d (s.periodLengthMs - s.ledger.getD s.currentPeriod 0)) :=
              le_max_left 0 _
            rw [hnew]
            linarith
        · simp only [if_neg hact] at hx
          exact h3 pl0 hpl0 x hx
      · exact h3 pl hpl x hx
  · exact ⟨h1, h2, h3⟩

lemma wf_startPause (s : GameState) (h : WF s) : WF (startPause s) :=
  wf_of_eq_fields h rfl rfl rfl

lemma wf_nextPeriod (s : GameState) (h : WF s) : WF (nextPeriod s) := by
  obtain ⟨h1, h2, h3⟩ := h
  refine ⟨?_, h2, h3⟩
  have := numPeriods_pos s.format
  simp only [nextPeriod, GameState.nPeriods] at *
  omega

lemma wf_selectPeriod (s : GameState) (i : ℕ) (h : WF s) : WF (selectPeriod s i) := by
  obtain ⟨h1, h2, h3⟩ := h
  simp only [selectPeriod]
  split
  · next hi => exact ⟨hi, h2, h3⟩
  · exact ⟨h1, h2, h3⟩

lemma wf_resetAll (s : GameState) (h : WF s) : WF (resetAll s) := by
  obtain ⟨h1, h2, h3⟩ := h
  refine ⟨?_, ?_, ?_⟩
  · exact numPeriods_pos s.format
  · intro pl hpl
    dsimp only [resetAll] at hpl
    obtain ⟨i, hi, rfl⟩ := List.mem_map.mp hpl
    simp [resetAll, GameState.nPeriods]
  · intro pl hpl x hx
    dsimp only [resetAll] at hpl
    obtain ⟨i, hi, rfl⟩ := List.mem_map.mp hpl
    simp only [List.mem_replicate] at hx
    rw [hx.2]

lemma wf_setFormat (s : GameState) (f : Format) (h : WF s) : WF (setFormat s f) := by
  obtain ⟨h1, h2, h3⟩ := h
  have hf := numPeriods_pos f
  refine ⟨?_, ?_, ?_⟩
  · simp only [setFormat, GameState.nPeriods]
    omega
  · intro pl hpl
    dsimp only [setFormat] at hpl
    obtain ⟨pl0, hpl0, rfl⟩ := List.mem_map.mp hpl
    simp [setFormat, GameState.nPeriods, reshapeArr_length]
  · intro pl hpl x hx
    dsimp only [setFormat] at hpl
    obtain ⟨pl0, hpl0, rfl⟩ := List.mem_map.mp hpl
    dsimp only at hx
    rcases reshapeArr_mem _ _ hx with hold | h0
    · exact h3 pl0 hpl0 x hold
    · rw [h0]

lemma wf_setPeriodMinutes (s : GameState) (m : ℤ) (h : WF s) : WF (setPeriodMinutes s m) :=
  wf_of_eq_fields h rfl rfl rfl

lemma wf_setNumPlayers (s : GameState) (n : ℤ) (h : WF s) : WF (setNumPlayers s n) := by
  obtain ⟨h1, h2, h3⟩ := h
  refine ⟨h1, ?_, ?_⟩
  · intro pl hpl
    dsimp only [setNumPlayers] at hpl
    split at hpl
    · rcases List.mem_append.mp hpl with hold | hnew
      · exact h2 pl hold
      · obtain ⟨i, hi, rfl⟩ := List.mem_map.mp hnew
        simp [newPlayer, setNumPlayers, GameState.nPeriods]
    · exact h2 pl (List.mem_of_mem_take hpl)
  · intro pl hpl x hx
    dsimp only [setNumPlayers] at hpl
    split at hpl
    · rcases List.mem_append.mp hpl with hold | hnew
      · exact h3 pl hold x hx
      · obtain ⟨i, hi, rfl⟩ := List.mem_map.mp hnew
        simp only [newPlayer, List.mem_replicate] at hx
        rw [hx.2]
    · exact h3 pl (List.mem_of_mem_take hpl) x hx

lemma wf_setOnCourt (s : GameState) (n : ℤ) (h : WF s) : WF (setOnCourt s n) :=
  wf_of_eq_fields h rfl rfl rfl

lemma wf_toggleActive (s : GameState) (idx : ℕ) (h : WF s) : WF (toggleActive s idx) := by
  obtain ⟨h1, h2, h3⟩ := h
  simp only [toggleActive]
  split
  · next hidx =>
    split
    · exact ⟨h1, h2, h3⟩
    · refine ⟨h1, ?_, ?_⟩
      · intro pl hpl
        dsimp only at hpl
        rcases List.mem_or_eq_of_mem_set hpl with hold | hnew
        · exact h2 pl hold
        · rw [hnew]
          dsimp only
          exact h2 _ (List.get_mem s.players idx _)
      · intro pl hpl x hx
        dsimp only at hpl
        rcases List.mem_or_eq_of_mem_set hpl with hold | hnew
        · exact h3 pl hold x hx
        · rw [hnew] at hx
          dsimp only at hx
          exact h3 _ (List.get_mem s.players idx _) x hx
  · exact ⟨h1, h2, h3⟩

lemma wf_autoFill (s : GameState) (h : WF s) : WF (autoFill s) := by
  obtain ⟨h1, h2, h3⟩ := h
  refine ⟨h1, ?_, ?_⟩
  · intro pl hpl
    dsimp only [autoFill] at hpl
    obtain ⟨i, hi, rfl⟩ := List.mem_map.mp hpl
    simp only [List.mem_range] at hi
    dsimp only
    exact h2 _ (list_getD_mem s.players i default hi)
  · intro pl hpl x hx
    dsimp only [autoFill] at hpl
    obtain ⟨i, hi, rfl⟩ := List.mem_map.mp hpl
    simp only [List.mem_range] at hi
    dsimp only at hx
    exact h3 _ (list_getD_mem s.players i default hi) x hx

lemma wf_otTick (s : GameState) (d : ℚ) (h : WF s) : WF (otTick s d) := by
  simp only [otTick]
  split
  · exact wf_of_eq_fields h rfl rfl rfl
  · exact h

lemma wf_otToggle (s : GameState) (h : WF s) : WF (otToggle s) :=
  wf_of_eq_fields h rfl rfl rfl

lemma wf_otReset (s : GameState) (h : WF s) : WF (otReset s) :=
  wf_of_eq_fields h rfl rfl rfl

/-- Every reachable state, along any trace whatsoever, satisfies the structural invariant. -/
theorem reachW_wf {P : GameState → Step → Prop} {s : GameState} (h : ReachW P s) : WF s := by
  induction h with
  | init => exact ⟨by decide, by decide, by decide⟩
  | next a hs ha ih =>
    cases a with
    | tick d => exact wf_tick _ d ih
    | startPause => exact wf_startPause _ ih
    | nextPeriod => exact wf_nextPeriod _ ih
    | selectPeriod i => exact wf_selectPeriod _ i ih
    | resetAll => exact wf_resetAll _ ih
    | setFormat f => exact wf_setFormat _ f ih
    | setPeriodMinutes m => exact wf_setPeriodMinutes _ m ih
    | setNumPlayers n => exact wf_setNumPlayers _ n ih
    | setOnCourt n => exact wf_setOnCourt _ n ih
    | toggleActive idx => exact wf_toggleActive _ idx ih
    | autoFill => exact wf_autoFill _ ih
    | otTick d => exact wf_otTick _ d ih
    | otToggle => exact wf_otToggle _ ih
    | otReset => exact wf_otReset _ ih

lemma periodLengthMs_nonneg (s : GameState) : 0 ≤ s.periodLengthMs := by
  unfold GameState.periodLengthMs
  positivity

/-- Along any trace at all, every ledger slot stays non-negative. -/
theorem ledger_nonneg {P : GameState → Step → Prop} {s : GameState} (h : ReachW P s) :
    ∀ i, 0 ≤ s.ledger.getD i 0 := by
  induction h with
  | init =>
    intro i
    rw [show initState.ledger = List.replicate 4 0 from rfl, list_getD_replicate]
  | @next s0 a hs ha ih =>
    cases a with
    | tick d =>
      intro i
      simp only [stepFn, tick, mathMin_eq, mathMax_eq]
      split
      · dsimp only
        by_cases hip : i = s0.currentPeriod
        · rw [hip]
          by_cases hlt : s0.currentPeriod < s0.ledger.length
          · rw [list_getD_set_eq _ _ _ _ hlt]
            have h0 : (0:ℚ) ≤ max 0
                (min d (s0.periodLengthMs - s0.ledger.getD s0.currentPeriod 0)) :=
              le_max_left _ _
            linarith [ih s0.currentPeriod]
          · rw [List.set_eq_of_length_le (by omega)]
            exact ih s0.currentPeriod
        · rw [list_getD_set_ne _ _ _ hip]
          exact ih i
      · exact ih i
    | startPause => exact ih
    | nextPeriod => exact ih
    | selectPeriod i =>
      intro j
      simp only [stepFn, selectPeriod]
      split
      · exact ih j
      · exact ih j
    | resetAll =>
      intro i
      show (0:ℚ) ≤ (List.replicate s0.nPeriods (0:ℚ)).getD i 0
      rw [list_getD_replicate]
    | setFormat f =>
      intro i
      show (0:ℚ) ≤ (reshapeArr f.numPeriods s0.ledger).getD i 0
      by_cases hi : i < f.numPeriods
      · rw [reshapeArr_getD_lt _ _ _ hi]
        exact ih i
      · rw [reshapeArr_getD_ge _ _ _ (by omega)]
    | setPeriodMinutes m => exact ih
    | setNumPlayers n => exact ih
    | setOnCourt n => exact ih
    | toggleActive idx =>
      intro i
      simp only [stepFn, toggleActive]
      split
      · split
        · exact ih i
        · exact ih i
      · exact ih i
    | autoFill => exact ih
    | otTick d =>
      intro i
      simp only [stepFn, otTick]
      split
      · exact ih i
      · exact ih i
    | otToggle => exact ih
    | otReset => exact ih

/-- Along any trace that never lowers the minutes-per-period setting, every ledger slot
stays below the configured period length. -/
theorem ledger_le_cap {s : GameState} (h : ReachW noPMShrink s) :
    ∀ i, s.ledger.getD i 0 ≤ s.periodLengthMs := by
  induction h with
  | init =>
    intro i
    rw [show initState.ledger = List.replicate 4 0 from rfl, list_getD_replicate]
    exact periodLengthMs_nonneg initState
  | @next s0 a hs ha ih =>
    cases a with
    | tick d =>
      intro i
      simp only [stepFn, tick, mathMin_eq, mathMax_eq]
      split
      · dsimp only
        show (s0.ledger.set s0.currentPeriod _).getD i 0 ≤ s0.periodLengthMs
        by_cases hip : i = s0.currentPeriod
        · rw [hip]
          by_cases hlt : s0.currentPeriod < s0.ledger.length
          · rw [list_getD_set_eq _ _ _ _ hlt]
            have hrem : 0 ≤ s0.periodLengthMs - s0.ledger.getD s0.currentPeriod 0 := by
              linarith [ih s0.currentPeriod]
            have happ : max 0 (min d (s0.periodLengthMs - s0.ledger.getD s0.currentPeriod 0))
                ≤ s0.periodLengthMs - s0.ledger.getD s0.currentPeriod 0 :=
              max_le hrem (min_le_right _ _)
            linarith
          · rw [List.set_eq_of_length_le (by omega)]
            exact ih s0.currentPeriod
        · rw [list_getD_set_ne _ _ _ hip]
          exact ih i
      · exact ih i
    | startPause => exact ih
    | nextPeriod => exact ih
    | selectPeriod i =>
      intro j
      simp only [stepFn, selectPeriod]
      split
      · exact ih j
      · exact ih j
    | resetAll =>
      intro i
      show (List.replicate s0.nPeriods (0:ℚ)).getD i 0 ≤ s0.periodLengthMs
      rw [list_getD_replicate]
      exact periodLengthMs_nonneg s0
    | setFormat f =>
      intro i
      show (reshapeArr f.numPeriods s0.ledger).getD i 0 ≤ s0.periodLengthMs
      by_cases hi : i < f.numPeriods
      · rw [reshapeArr_getD_lt _ _ _ hi]
        exact ih i
      · rw [reshapeArr_getD_ge _ _ _ (by omega)]
        exact periodLengthMs_nonneg s0
    | setPeriodMinutes m =>
      intro i
      have hm : (s0.periodMinutes : ℤ) ≤ clampI m 1 90 := ha m rfl
      have h1 : s0.periodMinutes ≤ (clampI m 1 90).toNat := by omega
      have h2 : (s0.periodMinutes : ℚ) ≤ (((clampI m 1 90).toNat : ℕ) : ℚ) := by
        exact_mod_cast h1
      show s0.ledger.getD i 0 ≤ (setPeriodMinutes s0 m).periodLengthMs
      have h3 : (setPeriodMinutes s0 m).periodLengthMs
          = (((clampI m 1 90).toNat : ℕ) : ℚ) * 60 * 1000 := rfl
      have h4 := ih i
      rw [h3]
      unfold GameState.periodLengthMs at h4
      nlinarith
    | setNumPlayers n => exact ih
    | setOnCourt n => exact ih
    | toggleActive idx =>
      intro i
      simp only [stepFn, toggleActive]
      split
      · split
        · exact ih i
        · exact ih i
      · exact ih i
    | autoFill => exact ih
    | otTick d =>
      intro i
      simp only [stepFn, otTick]
      split
      · exact ih i
      · exact ih i
    | otToggle => exact ih
    | otReset => exact ih

/-- Along any trace at all, the recorded total of every player is at least the sum of the
per-period breakdown (a period-count shrink can only lose breakdown, never total). -/
theorem total_ge_sum {P : GameState → Step → Prop} {s : GameState} (h : ReachW P s) :
    ∀ pl ∈ s.players, pl.periodMs.sum ≤ pl.totalMs := by
  induction h with
  | init =>
    intro pl hpl
    rw [show initState.players = (List.range 11).map initPlayer from rfl] at hpl
    obtain ⟨i, hi, rfl⟩ := List.mem_map.mp hpl
    simp [initPlayer]
  | @next s0 a hs ha ih =>
    obtain ⟨w1, w2, w3⟩ := reachW_wf hs
    cases a with
    | tick d =>
      intro pl hpl
      simp only [stepFn, tick, mathMin_eq, mathMax_eq] at hpl
      split at hpl
      · dsimp only at hpl
        split at hpl
        · obtain ⟨pl0, hpl0, rfl⟩ := List.mem_map.mp hpl
          by_cases hact : pl0.active
          · simp only [if_pos hact]
            have hp : s0.currentPeriod < pl0.periodMs.length := by
              rw [w2 pl0 hpl0]; exact w1
            rw [list_sum_set_add _ _ _ hp]
            have := ih pl0 hpl0
            linarith
          · simp only [if_neg hact]
            exact ih pl0 hpl0
        · exact ih pl hpl
      · exact ih pl hpl
    | startPause => exact ih
    | nextPeriod => exact ih
    | selectPeriod i =>
      intro pl hpl
      simp only [stepFn, selectPeriod] at hpl
      split at hpl
      · exact ih pl hpl
      · exact ih pl hpl
    | resetAll =>
      intro pl hpl
      simp only [stepFn, resetAll] at hpl
      obtain ⟨i, hi, rfl⟩ := List.mem_map.mp hpl
      simp
    | setFormat f =>
      intro pl hpl
      simp only [stepFn, setFormat] at hpl
      obtain ⟨pl0, hpl0, rfl⟩ := List.mem_map.mp hpl
      dsimp only
      rw [reshapeArr_sum]
      have h1 := list_sum_take_le pl0.periodMs f.numPeriods (w3 pl0 hpl0)
      have h2 := ih pl0 hpl0
      linarith
    | setPeriodMinutes m => exact ih
    | setNumPlayers n =>
      intro pl hpl
      simp only [stepFn, setNumPlayers] at hpl
      split at hpl
      · rcases List.mem_append.mp hpl with hold | hnew
        · exact ih pl hold
        · obtain ⟨i, hi, rfl⟩ := List.mem_map.mp hnew
          simp [newPlayer]
      · exact ih pl (List.mem_of_mem_take hpl)
    | setOnCourt n => exact ih
    | toggleActive idx =>
      intro pl hpl
      simp only [stepFn, toggleActive] at hpl
      split at hpl
      · split at hpl
        · exact ih pl hpl
        · dsimp only at hpl
          rcases List.mem_or_eq_of_mem_set hpl with hold | hnew
          · exact ih pl hold
          · rw [hnew]
            dsimp only
            exact ih _ (List.get_mem s0.players idx _)
      · exact ih pl hpl
    | autoFill =>
      intro pl hpl
      simp only [stepFn, autoFill] at hpl
      obtain ⟨i, hi, rfl⟩ := List.mem_map.mp hpl
      simp only [List.mem_range] at hi
      dsimp only
      exact ih _ (list_getD_mem s0.players i default hi)
    | otTick d =>
      intro pl hpl
      simp only [stepFn, otTick] at hpl
      split at hpl
      · exact ih pl hpl
      · exact ih pl hpl
    | otToggle => exact ih
    | otReset => exact ih

/-- Along any trace whose format changes only ever drop periods holding no accrued time,
the recorded total of every player equals the sum of the per-period breakdown. -/
theorem total_eq_sum {s : GameState} (h : ReachW fmtSafe s) :
    ∀ pl ∈ s.players, pl.totalMs = pl.periodMs.sum := by
  induction h with
  | init =>
    intro pl hpl
    rw [show initState.players = (List.range 11).map initPlayer from rfl] at hpl
    obtain ⟨i, hi, rfl⟩ := List.mem_map.mp hpl
    simp [initPlayer]
  | @next s0 a hs ha ih =>
    obtain ⟨w1, w2, w3⟩ := reachW_wf hs
    cases a with
    | tick d =>
      intro pl hpl
      simp only [stepFn, tick, mathMin_eq, mathMax_eq] at hpl
      split at hpl
      · dsimp only at hpl
        split at hpl
        · obtain ⟨pl0, hpl0, rfl⟩ := List.mem_map.mp hpl
          by_cases hact : pl0.active
          · simp only [if_pos hact]
            have hp : s0.currentPeriod < pl0.periodMs.length := by
              rw [w2 pl0 hpl0]; exact w1
            rw [list_sum_set_add _ _ _ hp, ih pl0 hpl0]
          · simp only [if_neg hact]
            exact ih pl0 hpl0
        · exact ih pl hpl
      · exact ih pl hpl
    | startPause => exact ih
    | nextPeriod => exact ih
    | selectPeriod i =>
      intro pl hpl
      simp only [stepFn, selectPeriod] at hpl
      split at hpl
      · exact ih pl hpl
      · exact ih pl hpl
    | resetAll =>
      intro pl hpl
      simp only [stepFn, resetAll] at hpl
      obtain ⟨i, hi, rfl⟩ := List.mem_map.mp hpl
      simp
    | setFormat f =>
      intro pl hpl
      simp only [stepFn, setFormat] at hpl
      obtain ⟨pl0, hpl0, rfl⟩ := List.mem_map.mp hpl
      dsimp only
      rw [reshapeArr_sum]
      have h1 := List.sum_take_add_sum_drop pl0.periodMs f.numPeriods
      have h2 : (pl0.periodMs.drop f.numPeriods).sum = 0 := ha f rfl pl0 hpl0
      have h3 := ih pl0 hpl0
      linarith
    | setPeriodMinutes m => exact ih
    | setNumPlayers n =>
      intro pl hpl
      simp only [stepFn, setNumPlayers] at hpl
      split at hpl
      · rcases List.mem_append.mp hpl with hold | hnew
        · exact ih pl hold
        · obtain ⟨i, hi, rfl⟩ := List.mem_map.mp hnew
          simp [newPlayer]
      · exact ih pl (List.mem_of_mem_take hpl)
    | setOnCourt n => exact ih
    | toggleActive idx =>
      intro pl hpl
      simp only [stepFn, toggleActive] at hpl
      split at hpl
      · split at hpl
        · exact ih pl hpl
        · dsimp only at hpl
          rcases List.mem_or_eq_of_mem_set hpl with hold | hnew
          · exact ih pl hold
          · rw [hnew]
            dsimp only
            exact ih _ (List.get_mem s0.players idx _)
      · exact ih pl hpl
    | autoFill =>
      intro pl hpl
      simp only [stepFn, autoFill] at hpl
      obtain ⟨i, hi, rfl⟩ := List.mem_map.mp hpl
      simp only [List.mem_range] at hi
      dsimp only
      exact ih _ (list_getD_mem s0.players i default hi)
    | otTick d =>
      intro pl hpl
      simp only [stepFn, otTick] at hpl
      split at hpl
      · exact ih pl hpl
      · exact ih pl hpl
    | otToggle => exact ih
    | otReset => exact ih

/-- Reading an index below the length through a `map` evaluates the function at that entry. -/
lemma list_getD_map {α β : Type} (l : List α) (f : α → β) (i : ℕ) (dα : α) (dβ : β)
    (h : i < l.length) : (l.map f).getD i dβ = f (l.getD i dα) := by
  rw [List.getD_eq_getElem _ _ (by simpa using h), List.getD_eq_getElem _ _ h]
  simp

/-- A tick fired while the current period is already at (or beyond) its cap applies zero
time and stops the engine, changing nothing else. -/
lemma tick_at_cap (s : GameState) (d : ℚ) (hrun : s.running = true)
    (hcap : s.periodLengthMs ≤ s.ledger.getD s.currentPeriod 0) :
    tick s d = { s with running := false } := by
  simp only [tick, if_pos hrun]
  have hmin : mathMin d (s.periodLengthMs - s.ledger.getD s.currentPeriod 0) ≤ 0 := by
    rw [mathMin_eq]
    exact le_trans (min_le_right _ _) (by linarith)
  have happ : mathMax 0 (mathMin d (s.periodLengthMs - s.ledger.getD s.currentPeriod 0)) = 0 := by
    rw [mathMax_eq]
    exact max_eq_left hmin
  rw [happ, add_zero, list_set_getD_self, if_neg (lt_irrefl 0), if_pos hcap]

/-! ### Claim theorems -/

/-- C5: the fairness metrics are pure functions of the current state: with a non-empty
roster, `idealMsSoFar = gameElapsedMs * (onCourt / numPlayers)` where `gameElapsedMs` is the
ledger sum, and `goalPerPlayerFullGameMs = (numPeriods * periodLengthMs * onCourt) /
numPlayers`; with `numPlayers = 0` both metrics evaluate to `0` rather than faulting; and for
4 periods of 8 minutes with 5 on court and 10 players the goal equals 960000 ms. -/
theorem C5_fairness_metrics :
    (∀ s : GameState, s.numPlayers = 0 → idealMsSoFar s = 0 ∧ goalPerPlayerFullGameMs s = 0)
    ∧ (∀ s : GameState, s.numPlayers ≠ 0 →
        gameElapsedMs s = s.ledger.sum
        ∧ idealMsSoFar s = gameElapsedMs s * ((s.onCourt : ℚ) / (s.numPlayers : ℚ))
        ∧ goalPerPlayerFullGameMs s
            = ((s.nPeriods : ℚ) * s.periodLengthMs * (s.onCourt : ℚ)) / (s.numPlayers : ℚ))
    ∧ (∀ s : GameState, s.format = .Quarters → s.periodMinutes = 8 → s.onCourt = 5 →
        s.numPlayers = 10 → goalPerPlayerFullGameMs s = 960000) := by
  refine ⟨?_, ?_, ?_⟩
  · intro s h
    simp [idealMsSoFar, goalPerPlayerFullGameMs, h]
  · intro s h
    refine ⟨rfl, by simp [idealMsSoFar, h], ?_⟩
    rw [goalPerPlayerFullGameMs, if_pos h, fullGameMs]
  · intro s h1 h2 h3 h4
    have h5 : s.numPlayers ≠ 0 := by rw [h4]; norm_num
    rw [goalPerPlayerFullGameMs, if_pos h5, fullGameMs,
      GameState.nPeriods, GameState.periodLengthMs, h1, h2, h3, h4]
    try norm_num [Format.numPeriods]

/-- Witness for C5 at a concrete state: the full-game goal for 10 players evaluates
to 960000 ms. -/
theorem C5_fairness_metrics_witness :
    goalPerPlayerFullGameMs { initState with numPlayers := 10 } = 960000 :=
  C5_fairness_metrics.2.2 _ rfl rfl rfl rfl

/-- C6: toggling an inactive player while the active count already equals the on-court limit
changes nothing but the error toast, which is set to the capacity notice; toggling an active
player always deactivates that player. -/
theorem C6_toggle_capacity (s : GameState) (idx : ℕ) (h : idx < s.players.length) :
    ((s.players.get ⟨idx, h⟩).active = false → activeCount s = s.onCourt →
      toggleActive s idx = { s with errorToast := some (capacityMsg s.onCourt) })
    ∧ ((s.players.get ⟨idx, h⟩).active = true →
      (toggleActive s idx).players
          = s.players.set idx { s.players.get ⟨idx, h⟩ with active := false }
        ∧ (toggleActive s idx).errorToast = s.errorToast) := by
  constructor
  · intro hact hcnt
    rw [toggleActive, dif_pos h, if_pos ⟨hact, le_of_eq hcnt.symm⟩]
  · intro hact
    rw [toggleActive, dif_pos h,
      if_neg (fun hc => by rw [hact] at hc; exact absurd hc.1 (by decide))]
    rw [hact]
    exact ⟨rfl, rfl⟩

/-- Witness for C6: in the initial state the sixth player is inactive, five players are
already on court, and the toggle is rejected with the capacity notice. -/
theorem C6_toggle_capacity_witness :
    toggleActive initState 5 = { initState with errorToast := some (capacityMsg 5) } :=
  (C6_toggle_capacity initState 5 (by decide)).1 (by decide) (by decide)

/-- C7 (amended): an overtime tick sets `otElapsedMs` to `min(OT_LENGTH_MS, otElapsedMs + d)`,
so it never exceeds the 3-minute cap and touches no player accrual and no ledger slot; but
there is no lower clamp, so a negative delta decreases the overtime clock. -/
theorem C7_ot_tick_amended (s : GameState) (d : ℚ) (h : s.otRunning = true) :
    (otTick s d).otElapsedMs = min OT_LENGTH_MS (s.otElapsedMs + d)
    ∧ (otTick s d).otElapsedMs ≤ OT_LENGTH_MS
    ∧ (otTick s d).players = s.players
    ∧ (otTick s d).ledger = s.ledger := by
  rw [otTick, if_pos h]
  rw [show ({ s with otElapsedMs := mathMin OT_LENGTH_MS (s.otElapsedMs + d) }
      : GameState).otElapsedMs = mathMin OT_LENGTH_MS (s.otElapsedMs + d) from rfl, mathMin_eq]
  exact ⟨rfl, min_le_left _ _, rfl, rfl⟩

/-- Witness for C7 (amended) at a concrete running overtime clock with a negative delta. -/
theorem C7_ot_tick_amended_witness :
    (otTick { initState with otRunning := true } (-7)).otElapsedMs
      = min OT_LENGTH_MS ((0 : ℚ) + (-7)) :=
  (C7_ot_tick_amended { initState with otRunning := true } (-7) rfl).1

/-- C7 counterexample: the overtime tick does not apply `clamp(d, 0, OT_LENGTH_MS -
otElapsedMs)` — on the reachable state with one second on the overtime clock, a tick with
delta `-500` decreases `otElapsedMs` to 500 ms, while the claimed clamp would have left it
unchanged at 1000 ms. -/
theorem C7_counterexample :
    Reach (stepFn (stepFn initState Step.otToggle) (Step.otTick 1000))
    ∧ (stepFn (stepFn initState Step.otToggle) (Step.otTick 1000)).otElapsedMs = 1000
    ∧ (stepFn (stepFn (stepFn initState Step.otToggle) (Step.otTick 1000))
        (Step.otTick (-500))).otElapsedMs = 500
    ∧ (1000 : ℚ) + clampQ (-500) 0 (OT_LENGTH_MS - 1000) = 1000 := by
  have e1 : stepFn initState Step.otToggle = { initState with otRunning := true } := rfl
  have e2 : stepFn { initState with otRunning := true } (Step.otTick 1000)
      = { initState with otRunning := true, otElapsedMs := 1000 } := by
    simp only [stepFn, otTick, if_pos]
    norm_num [mathMin, OT_LENGTH_MS, initState]
  have e3 : stepFn { initState with otRunning := true, otElapsedMs := 1000 }
        (Step.otTick (-500))
      = { initState with otRunning := true, otElapsedMs := 500 } := by
    simp only [stepFn, otTick, if_pos]
    norm_num [mathMin, OT_LENGTH_MS, initState]
  refine ⟨ReachW.next _ (ReachW.next _ ReachW.init trivial) trivial, ?_, ?_, ?_⟩
  · rw [e1, e2]
  · rw [e1, e2, e3]
  · norm_num [clampQ, mathMin, mathMax, OT_LENGTH_MS]

/-- C9 (amended): `nextPeriod` increments the current period clamped to the last index and
`resetAll` returns it to 0, but the period index is not monotone: the period tabs set it to
any index below the period count, including earlier ones. -/
theorem C9_current_period_amended (s : GameState) (i : ℕ) (hi : i < s.nPeriods) :
    (nextPeriod s).currentPeriod = min (s.currentPeriod + 1) (s.nPeriods - 1)
    ∧ (resetAll s).currentPeriod = 0
    ∧ (selectPeriod s i).currentPeriod = i := by
  refine ⟨rfl, rfl, ?_⟩
  rw [selectPeriod, if_pos hi]

/-- Witness for C9 (amended) at the initial state and tab index 1. -/
theorem C9_current_period_amended_witness :
    (selectPeriod initState 1).currentPeriod = 1 :=
  (C9_current_period_amended initState 1 (by decide)).2.2

/-- C9 counterexample: after advancing to period 1, clicking the first period tab moves the
current period back to 0 with no reset — the index is not monotonically non-decreasing. -/
theorem C9_counterexample :
    Reach (stepFn initState Step.nextPeriod)
    ∧ (stepFn initState Step.nextPeriod).currentPeriod = 1
    ∧ (stepFn (stepFn initState Step.nextPeriod) (Step.selectPeriod 0)).currentPeriod = 0 :=
  ⟨ReachW.next _ ReachW.init trivial, rfl, rfl⟩

/-- C2 (amended): in every reachable state the `totalMs` of every player is at least
`sum(periodMs)`, and equality holds along every trace whose format changes only drop periods
with no accrued time; a format change that truncates a period holding accrued time keeps that
time in `totalMs` while removing it from the breakdown. -/
theorem C2_accrual_invariant_amended :
    (∀ s : GameState, Reach s → ∀ pl ∈ s.players, pl.periodMs.sum ≤ pl.totalMs)
    ∧ (∀ s : GameState, ReachW fmtSafe s → ∀ pl ∈ s.players, pl.totalMs = pl.periodMs.sum) :=
  ⟨fun _ h => total_ge_sum h, fun _ h => total_eq_sum h⟩

/-- Witness for C2 (amended) at the initial state and its first player. -/
theorem C2_accrual_invariant_amended_witness :
    (initPlayer 0).totalMs = (initPlayer 0).periodMs.sum :=
  C2_accrual_invariant_amended.2 initState ReachW.init (initPlayer 0)
    (List.mem_map.mpr ⟨0, by simp, rfl⟩)

/-- C2 counterexample: shrink the roster to one player, select period 3 (index 2), run
1000 ms, then switch the format from Quarters to Halves.  The resulting state is reachable,
and its player has `totalMs = 1000` while `sum(periodMs) = 0`: the invariant
`totalMs == sum(periodMs)` fails after a period-count change. -/
theorem C2_counterexample :
    Reach (stepFn (stepFn (stepFn (stepFn (stepFn initState (Step.setNumPlayers 1))
        (Step.selectPeriod 2)) Step.startPause) (Step.tick 1000)) (Step.setFormat Format.Halves))
    ∧ ((stepFn (stepFn (stepFn (stepFn (stepFn initState (Step.setNumPlayers 1))
        (Step.selectPeriod 2)) Step.startPause) (Step.tick 1000))
          (Step.setFormat Format.Halves)).players.getD 0 default).totalMs = 1000
    ∧ ((stepFn (stepFn (stepFn (stepFn (stepFn initState (Step.setNumPlayers 1))
        (Step.selectPeriod 2)) Step.startPause) (Step.tick 1000))
          (Step.setFormat Format.Halves)).players.getD 0 default).periodMs.sum = 0 := by
  have e1 : stepFn initState (Step.setNumPlayers 1)
      = { initState with
          numPlayers := 1, onCourt := 1, players := [initPlayer 0] } := by
    simp only [stepFn, setNumPlayers]
    rw [show (clampI 1 1 100).toNat = 1 from by norm_num [clampI]]
    norm_num [initState]
    rfl
  have e2 : stepFn { initState with
          numPlayers := 1, onCourt := 1, players := [initPlayer 0] }
        (Step.selectPeriod 2)
      = { initState with
          numPlayers := 1, onCourt := 1, players := [initPlayer 0],
          currentPeriod := 2 } := by
    simp only [stepFn, selectPeriod]
    norm_num [GameState.nPeriods, initState, Format.numPeriods]
  have e3 : stepFn { initState with
          numPlayers := 1, onCourt := 1, players := [initPlayer 0],
          currentPeriod := 2 } Step.startPause
      = { initState with
          numPlayers := 1, onCourt := 1, players := [initPlayer 0],
          currentPeriod := 2, running := true } := rfl
  have e4 : stepFn { initState with
          numPlayers := 1, onCourt := 1, players := [initPlayer 0],
          currentPeriod := 2, running := true } (Step.tick 1000)
      = { initState with
          numPlayers := 1, onCourt := 1,
          players := [{ initPlayer 0 with totalMs := 1000, periodMs := [0, 0, 1000, 0] }],
          currentPeriod := 2, running := true, ledger := [0, 0, 1000, 0] } := by
    simp only [stepFn, tick, mathMin_eq, mathMax_eq]
    norm_num [initState, GameState.periodLengthMs, List.getD, initPlayer]
    rfl
  have e5 : stepFn { initState with
          numPlayers := 1, onCourt := 1,
          players := [{ initPlayer 0 with totalMs := 1000, periodMs := [0, 0, 1000, 0] }],
          currentPeriod := 2, running := true, ledger := [0, 0, 1000, 0] }
        (Step.setFormat Format.Halves)
      = { initState with
          numPlayers := 1, onCourt := 1,
          players := [{ initPlayer 0 with totalMs := 1000, periodMs := [0, 0] }],
          currentPeriod := 1, running := true, ledger := [0, 0], format := .Halves } := by
    simp only [stepFn, setFormat]
    rfl
  refine ⟨ReachW.next _ (ReachW.next _ (ReachW.next _ (ReachW.next _ (ReachW.next _
    ReachW.init trivial) trivial) trivial) trivial) trivial, ?_, ?_⟩
  · rw [e1, e2, e3, e4, e5]
    rfl
  · rw [e1, e2, e3, e4, e5]
    norm_num [List.getD]

/-- C3 (amended): in every reachable state every ledger slot is non-negative, and the upper
bound `ledger[i] ≤ periodLengthMs` holds along every trace that never decreases
`periodMinutes`; lowering `periodMinutes` mid-game can leave a slot above the new cap. -/
theorem C3_ledger_bounds_amended :
    (∀ s : GameState, Reach s → ∀ i, 0 ≤ s.ledger.getD i 0)
    ∧ (∀ s : GameState, ReachW noPMShrink s → ∀ i, s.ledger.getD i 0 ≤ s.periodLengthMs) :=
  ⟨fun _ h => ledger_nonneg h, fun _ h => ledger_le_cap h⟩

/-- Witness for C3 (amended) at the initial state, slot 0. -/
theorem C3_ledger_bounds_amended_witness :
    (0 : ℚ) ≤ initState.ledger.getD 0 0
    ∧ initState.ledger.getD 0 0 ≤ initState.periodLengthMs :=
  ⟨C3_ledger_bounds_amended.1 initState ReachW.init 0,
   C3_ledger_bounds_amended.2 initState ReachW.init 0⟩

/-- C3 counterexample: run period 0 to its 8-minute cap, then lower the minutes-per-period
input to 4.  The resulting state is reachable and its ledger slot 0 holds 480000 ms, above
the new 240000 ms period length: `ledger[i] <= periodLengthMs` fails after `periodMinutes`
is changed mid-game. -/
theorem C3_counterexample :
    Reach (stepFn (stepFn (stepFn initState Step.startPause) (Step.tick 480000))
        (Step.setPeriodMinutes 4))
    ∧ (stepFn (stepFn (stepFn initState Step.startPause) (Step.tick 480000))
        (Step.setPeriodMinutes 4)).periodLengthMs
      < (stepFn (stepFn (stepFn initState Step.startPause) (Step.tick 480000))
        (Step.setPeriodMinutes 4)).ledger.getD 0 0 := by
  have e1 : stepFn initState Step.startPause = { initState with running := true } := rfl
  have e2 : stepFn { initState with running := true } (Step.tick 480000)
      = { (stepFn { initState with running := true } (Step.tick 480000)) with
          running := false, ledger := [480000, 0, 0, 0] } := by
    simp only [stepFn, tick, mathMin_eq, mathMax_eq]
    norm_num [initState, GameState.periodLengthMs, List.getD]
    rfl
  refine ⟨ReachW.next _ (ReachW.next _ (ReachW.next _ ReachW.init trivial) trivial)
    trivial, ?_⟩
  rw [e1, e2]
  norm_num [stepFn, setPeriodMinutes, GameState.periodLengthMs, clampI, List.getD]
  rw [show ((4:ℤ).toNat : ℕ) = 4 from rfl]
  norm_num

/-- C8 (amended): the start button toggles `running` unconditionally, so invoking start
while the current period is at its cap puts the engine in Running rather than leaving it
Idle; the very next tick then applies zero time, leaves the ledger and every player
untouched, and drops the engine back to Idle. -/
theorem C8_start_transition_amended (s : GameState)
    (hidle : s.running = false)
    (hcap : s.periodLengthMs ≤ s.ledger.getD s.currentPeriod 0) :
    (startPause s).running = true
    ∧ ∀ d : ℚ, (tick (startPause s) d).ledger = s.ledger
        ∧ (tick (startPause s) d).players = s.players
        ∧ (tick (startPause s) d).running = false := by
  have h1 : (startPause s).running = true := by
    rw [startPause]
    show (!s.running) = true
    rw [hidle]
    rfl
  refine ⟨h1, fun d => ?_⟩
  rw [tick_at_cap (startPause s) d h1 hcap]
  exact ⟨rfl, rfl, rfl⟩

/-- Witness for C8 (amended) at a concrete paused state whose first period is at the cap. -/
theorem C8_start_transition_amended_witness :
    (startPause { initState with ledger := [480000, 0, 0, 0] }).running = true :=
  (C8_start_transition_amended { initState with ledger := [480000, 0, 0, 0] } rfl
    (by show ((8:ℕ):ℚ) * 60 * 1000 ≤ (480000:ℚ); norm_num)).1

/-- C8 counterexample: run period 0 to its cap (the engine auto-pauses), then press start.
The engine goes to Running even though the current period is complete — start is an
unconditional toggle, not guarded by `ledger[currentPeriod] < periodLengthMs`. -/
theorem C8_counterexample :
    Reach (stepFn (stepFn initState Step.startPause) (Step.tick 480000))
    ∧ (stepFn (stepFn initState Step.startPause) (Step.tick 480000)).running = false
    ∧ (stepFn (stepFn initState Step.startPause) (Step.tick 480000)).periodLengthMs
        ≤ (stepFn (stepFn initState Step.startPause) (Step.tick 480000)).ledger.getD
            (stepFn (stepFn initState Step.startPause) (Step.tick 480000)).currentPeriod 0
    ∧ (stepFn (stepFn (stepFn initState Step.startPause) (Step.tick 480000))
        Step.startPause).running = true := by
  have e1 : stepFn initState Step.startPause = { initState with running := true } := rfl
  have e2 : stepFn { initState with running := true } (Step.tick 480000)
      = { (stepFn { initState with running := true } (Step.tick 480000)) with
          running := false, ledger := [480000, 0, 0, 0] } := by
    simp only [stepFn, tick, mathMin_eq, mathMax_eq]
    norm_num [initState, GameState.periodLengthMs, List.getD]
    rfl
  refine ⟨ReachW.next _ (ReachW.next _ ReachW.init trivial) trivial, ?_, ?_, ?_⟩
  · rw [e1, e2]
  · rw [e1, e2]
    show ((8:ℕ):ℚ) * 60 * 1000 ≤ (480000:ℚ)
    norm_num
  · rw [e1, e2]
    rfl

/-- C4 (amended): over JS number semantics, a negative tick delta is treated as a zero-time
tick — the ledger and every player are unchanged and, the model being total, no exception
escapes; a NaN delta likewise leaves every player untouched, but it does not leave the
ledger unchanged: the current slot becomes NaN. -/
theorem C4_malformed_delta_amended (len e : ℚ) (p : ℕ) (ledger : List JsNum)
    (players : List Player) (hp : p < ledger.length)
    (he : ledger.getD p (.val 0) = .val e) :
    (∀ q : ℚ, q < 0 →
      (jsTick len p ledger players (.val q)).1 = ledger
      ∧ (jsTick len p ledger players (.val q)).2 = players)
    ∧ (jsTick len p ledger players .nan).2 = players
    ∧ (jsTick len p ledger players .nan).1.getD p (.val 0) = .nan := by
  have hrem : jsSub (.val len) (ledger.getD p (.val 0)) = .val (len - e) := by
    rw [he]
    rfl
  have happn : jsMax (.val 0)
      (jsMin .nan (jsSub (.val len) (ledger.getD p (.val 0)))) = .nan := by
    rw [hrem]
    rfl
  refine ⟨fun q hq => ?_, ?_, ?_⟩
  · have happ : jsMax (.val 0)
        (jsMin (.val q) (jsSub (.val len) (ledger.getD p (.val 0)))) = .val 0 := by
      rw [hrem]
      show JsNum.val (mathMax 0 (mathMin q (len - e))) = JsNum.val 0
      rw [mathMax_eq, mathMin_eq, max_eq_left (le_trans (min_le_left _ _) (le_of_lt hq))]
    constructor
    · simp only [jsTick, happ]
      rw [he]
      show ledger.set p (.val (e + 0)) = ledger
      rw [add_zero, ← he, list_set_getD_self]
    · simp only [jsTick, happ]
      norm_num
  · simp only [jsTick, happn]
  · simp only [jsTick, happn]
    rw [he]
    show (ledger.set p JsNum.nan).getD p (.val 0) = .nan
    rw [list_getD_set_eq _ _ _ _ hp]

/-- Witness for C4 (amended): a concrete four-slot ledger and the default roster, with the
negative delta `-5`; the tick changes nothing. -/
theorem C4_malformed_delta_amended_witness :
    (jsTick 480000 0 [JsNum.val 0, .val 0, .val 0, .val 0] initState.players (.val (-5))).1
      = [JsNum.val 0, .val 0, .val 0, .val 0]
    ∧ (jsTick 480000 0 [JsNum.val 0, .val 0, .val 0, .val 0] initState.players (.val (-5))).2
      = initState.players :=
  (C4_malformed_delta_amended 480000 0 0 [.val 0, .val 0, .val 0, .val 0] initState.players
    (by decide) rfl).1 (-5) (by norm_num)

/-- C4 counterexample: a NaN delta is not treated as a zero-time tick — with the current
slot at `0`, the tick body of lines 239-256 stores `0 + NaN = NaN` into the slot (because
`Math.max(0, Math.min(NaN, remaining))` is NaN), so the ledger entry changes; the players
are indeed untouched, since `NaN > 0` is false. -/
theorem C4_counterexample :
    (jsTick 480000 0 [JsNum.val 0, .val 0, .val 0, .val 0] initState.players .nan).1.getD 0
        (.val 0) = .nan
    ∧ JsNum.nan ≠ JsNum.val 0
    ∧ (jsTick 480000 0 [JsNum.val 0, .val 0, .val 0, .val 0] initState.players .nan).2
      = initState.players :=
  ⟨rfl, by decide, rfl⟩

/-- C1 (amended): a tick on a Running engine adds `apply = max(0, min(d, remaining))` to the
current ledger slot (the code computes `Math.max(0, Math.min(delta, remaining))`, which is 0
— not the repository clamp, which would be negative — when `remaining < 0`), leaves every
other slot alone; when `apply > 0` every active player gains `apply` on `totalMs` and on the
current period slot and every inactive player is untouched; when `apply = 0` the players are
untouched; the engine ends Idle exactly when the updated slot reaches the period length; for
`0 ≤ d ≤ remaining` the gain is exactly `d`; and for `d > remaining ≥ 0` the gain is
exactly `remaining` and the engine pauses. -/
theorem C1_tick_contract_amended (s : GameState) (d : ℚ)
    (hrun : s.running = true)
    (hp : s.currentPeriod < s.ledger.length)
    (hpm : ∀ pl ∈ s.players, s.currentPeriod < pl.periodMs.length) :
    (tick s d).ledger.getD s.currentPeriod 0
        = s.ledger.getD s.currentPeriod 0
          + max 0 (min d (s.periodLengthMs - s.ledger.getD s.currentPeriod 0))
    ∧ (∀ j, j ≠ s.currentPeriod → (tick s d).ledger.getD j 0 = s.ledger.getD j 0)
    ∧ (0 < max 0 (min d (s.periodLengthMs - s.ledger.getD s.currentPeriod 0)) →
        ∀ i, i < s.players.length →
          (((s.players.getD i default).active = true →
              ((tick s d).players.getD i default).totalMs
                  = (s.players.getD i default).totalMs
                    + max 0 (min d (s.periodLengthMs - s.ledger.getD s.currentPeriod 0))
              ∧ ((tick s d).players.getD i default).periodMs.getD s.currentPeriod 0
                  = (s.players.getD i default).periodMs.getD s.currentPeriod 0
                    + max 0 (min d (s.periodLengthMs - s.ledger.getD s.currentPeriod 0)))
            ∧ ((s.players.getD i default).active = false →
                (tick s d).players.getD i default = s.players.getD i default)))
    ∧ (max 0 (min d (s.periodLengthMs - s.ledger.getD s.currentPeriod 0)) = 0 →
        (tick s d).players = s.players)
    ∧ ((tick s d).running = false
        ↔ s.periodLengthMs ≤ s.ledger.getD s.currentPeriod 0
            + max 0 (min d (s.periodLengthMs - s.ledger.getD s.currentPeriod 0)))
    ∧ (0 ≤ d → d ≤ s.periodLengthMs - s.ledger.getD s.currentPeriod 0 →
        max 0 (min d (s.periodLengthMs - s.ledger.getD s.currentPeriod 0)) = d)
    ∧ (s.periodLengthMs - s.ledger.getD s.currentPeriod 0 < d →
        0 ≤ s.periodLengthMs - s.ledger.getD s.currentPeriod 0 →
        max 0 (min d (s.periodLengthMs - s.ledger.getD s.currentPeriod 0))
            = s.periodLengthMs - s.ledger.getD s.currentPeriod 0
          ∧ (tick s d).running = false) := by
  have ht : tick s d = { s with
      ledger := s.ledger.set s.currentPeriod (s.ledger.getD s.currentPeriod 0
        + max 0 (min d (s.periodLengthMs - s.ledger.getD s.currentPeriod 0))),
      players := if 0 < max 0 (min d (s.periodLengthMs - s.ledger.getD s.currentPeriod 0))
        then s.players.map (fun pl =>
          if pl.active then
            { pl with
              totalMs := pl.totalMs
                + max 0 (min d (s.periodLengthMs - s.ledger.getD s.currentPeriod 0)),
              periodMs := pl.periodMs.set s.currentPeriod (pl.periodMs.getD s.currentPeriod 0
                + max 0 (min d (s.periodLengthMs - s.ledger.getD s.currentPeriod 0))) }
          else pl)
        else s.players,
      running := if s.periodLengthMs ≤ s.ledger.getD s.currentPeriod 0
          + max 0 (min d (s.periodLengthMs - s.ledger.getD s.currentPeriod 0))
        then false else s.running } := by
    simp only [tick, if_pos hrun, mathMin_eq, mathMax_eq, list_getD_set_eq _ _ _ _ hp]
  refine ⟨?_, ?_, ?_, ?_, ?_, ?_, ?_⟩
  · rw [ht]
    exact list_getD_set_eq _ _ _ _ hp
  · intro j hj
    rw [ht]
    exact list_getD_set_ne _ _ _ hj
  · intro hpos i hi
    rw [ht]
    dsimp only
    rw [if_pos hpos, list_getD_map s.players _ i default default hi]
    constructor
    · intro hact
      rw [if_pos hact]
      have hplen : s.currentPeriod < (s.players.getD i default).periodMs.length :=
        hpm _ (list_getD_mem s.players i default hi)
      exact ⟨rfl, list_getD_set_eq _ _ _ _ hplen⟩
    · intro hact
      rw [if_neg (fun hc => by rw [hact] at hc; exact absurd hc (by decide))]
  · intro h0
    rw [ht]
    dsimp only
    rw [h0, if_neg (lt_irrefl (0:ℚ))]
  · rw [ht]
    dsimp only
    by_cases hc : s.periodLengthMs ≤ s.ledger.getD s.currentPeriod 0
        + max 0 (min d (s.periodLengthMs - s.ledger.getD s.currentPeriod 0))
    · rw [if_pos hc]
      exact ⟨fun _ => hc, fun _ => rfl⟩
    · rw [if_neg hc, hrun]
      exact ⟨fun h => absurd h (by decide), fun h => absurd h hc⟩
  · intro h1 h2
    rw [min_eq_left h2, max_eq_right h1]
  · intro h1 h2
    have hA : max 0 (min d (s.periodLengthMs - s.ledger.getD s.currentPeriod 0))
        = s.periodLengthMs - s.ledger.getD s.currentPeriod 0 := by
      rw [min_eq_right (le_of_lt h1), max_eq_right h2]
    refine ⟨hA, ?_⟩
    rw [ht]
    dsimp only
    rw [hA, if_pos (by linarith)]

/-- Witness for C1 (amended): the initial state set Running, with a one-second delta; the
first ledger slot gains exactly the clamped amount. -/
theorem C1_tick_contract_amended_witness :
    (tick { initState with running := true } 1000).ledger.getD 0 0
      = ({ initState with running := true } : GameState).ledger.getD 0 0
        + max 0 (min 1000 (({ initState with running := true } : GameState).periodLengthMs
            - ({ initState with running := true } : GameState).ledger.getD 0 0)) :=
  (C1_tick_contract_amended { initState with running := true } 1000 rfl (by decide)
    (by decide)).1

/-- C1 counterexample: run period 0 to its 480000 ms cap, lower `periodMinutes` to 4
(`periodLengthMs` becomes 240000 while `ledger[0]` stays 480000), and press the unguarded
start toggle.  In this reachable Running state, a tick with `d = 1000` adds 0 to the ledger,
whereas the claimed `apply = clamp(d, 0, periodLengthMs - ledger[p])` is the repository
clamp, equal to -240000 here (nonzero), and the claimed `d > remaining` case would have the
ledger gain `remaining`, which is also nonzero: the claim fails at this state. -/
theorem C1_counterexample :
    Reach (stepFn (stepFn (stepFn (stepFn initState Step.startPause) (Step.tick 480000))
        (Step.setPeriodMinutes 4)) Step.startPause)
    ∧ (stepFn (stepFn (stepFn (stepFn initState Step.startPause) (Step.tick 480000))
        (Step.setPeriodMinutes 4)) Step.startPause).running = true
    ∧ (tick (stepFn (stepFn (stepFn (stepFn initState Step.startPause) (Step.tick 480000))
        (Step.setPeriodMinutes 4)) Step.startPause) 1000).ledger.getD 0 0
      = (stepFn (stepFn (stepFn (stepFn initState Step.startPause) (Step.tick 480000))
        (Step.setPeriodMinutes 4)) Step.startPause).ledger.getD 0 0
    ∧ clampQ 1000 0 ((stepFn (stepFn (stepFn (stepFn initState Step.startPause)
        (Step.tick 480000)) (Step.setPeriodMinutes 4)) Step.startPause).periodLengthMs
          - (stepFn (stepFn (stepFn (stepFn initState Step.startPause) (Step.tick 480000))
        (Step.setPeriodMinutes 4)) Step.startPause).ledger.getD 0 0) ≠ 0
    ∧ (stepFn (stepFn (stepFn (stepFn initState Step.startPause) (Step.tick 480000))
        (Step.setPeriodMinutes 4)) Step.startPause).periodLengthMs
          - (stepFn (stepFn (stepFn (stepFn initState Step.startPause) (Step.tick 480000))
        (Step.setPeriodMinutes 4)) Step.startPause).ledger.getD 0 0 < 1000
    ∧ (stepFn (stepFn (stepFn (stepFn initState Step.startPause) (Step.tick 480000))
        (Step.setPeriodMinutes 4)) Step.startPause).periodLengthMs
          - (stepFn (stepFn (stepFn (stepFn initState Step.startPause) (Step.tick 480000))
        (Step.setPeriodMinutes 4)) Step.startPause).ledger.getD 0 0 ≠ 0 := by
  have e1 : stepFn initState Step.startPause = { initState with running := true } := rfl
  have e2 : stepFn { initState with running := true } (Step.tick 480000)
      = { (stepFn { initState with running := true } (Step.tick 480000)) with
          running := false, ledger := [480000, 0, 0, 0] } := by
    simp only [stepFn, tick, mathMin_eq, mathMax_eq]
    norm_num [initState, GameState.periodLengthMs, List.getD]
    rfl
  have e3 : stepFn { (stepFn { initState with running := true } (Step.tick 480000)) with
          running := false, ledger := [480000, 0, 0, 0] } (Step.setPeriodMinutes 4)
      = { (stepFn { initState with running := true } (Step.tick 480000)) with
          running := false, ledger := [480000, 0, 0, 0], periodMinutes := 4 } := by
    simp only [stepFn, setPeriodMinutes]
    rw [show (clampI 4 1 90).toNat = 4 from by norm_num [clampI]; rfl]
  have e4 : stepFn { (stepFn { initState with running := true } (Step.tick 480000)) with
          running := false, ledger := [480000, 0, 0, 0], periodMinutes := 4 } Step.startPause
      = { (stepFn { initState with running := true } (Step.tick 480000)) with
          running := true, ledger := [480000, 0, 0, 0], periodMinutes := 4 } := rfl
  have hcap : ({ (stepFn { initState with running := true } (Step.tick 480000)) with
          running := true, ledger := [480000, 0, 0, 0], periodMinutes := 4 }
        : GameState).periodLengthMs
      ≤ ({ (stepFn { initState with running := true } (Step.tick 480000)) with
          running := true, ledger := [480000, 0, 0, 0], periodMinutes := 4 }
        : GameState).ledger.getD
          ({ (stepFn { initState with running := true } (Step.tick 480000)) with
          running := true, ledger := [480000, 0, 0, 0], periodMinutes := 4 }
        : GameState).currentPeriod 0 := by
    show ((4:ℕ):ℚ) * 60 * 1000 ≤ (480000:ℚ)
    norm_num
  refine ⟨ReachW.next _ (ReachW.next _ (ReachW.next _ (ReachW.next _ ReachW.init trivial)
    trivial) trivial) trivial, ?_, ?_, ?_, ?_, ?_⟩
  · rw [e1, e2, e3, e4]
  · rw [e1, e2, e3, e4, tick_at_cap _ 1000 rfl hcap]
  · rw [e1, e2, e3, e4]
    show clampQ 1000 0 (((4:ℕ):ℚ) * 60 * 1000 - 480000) ≠ 0
    norm_num [clampQ, mathMin, mathMax]
  · rw [e1, e2, e3, e4]
    show ((4:ℕ):ℚ) * 60 * 1000 - 480000 < 1000
    norm_num
  · rw [e1, e2, e3, e4]
    show ((4:ℕ):ℚ) * 60 * 1000 - 480000 ≠ 0
    norm_num

/-- Reading an index of a map over `List.range` evaluates the function at the index. -/
lemma range_map_getD {β : Type} (n i : ℕ) (f : ℕ → β) (dβ : β) (h : i < n) :
    ((List.range n).map f).getD i dβ = f i := by
  rw [List.getD_eq_getElem _ _ (by simpa using h)]
  simp

/-- Membership testing on a list of naturals agrees with list membership. -/
lemma contains_iff_mem_nat (ta : List ℕ) (i : ℕ) : ta.contains i = true ↔ i ∈ ta :=
  List.elem_iff

/-- Counting the members of a duplicate-free bounded set inside `List.range` gives its size. -/
lemma countP_range_contains (ta : List ℕ) (n : ℕ) (hnd : ta.Nodup)
    (hlt : ∀ x ∈ ta, x < n) :
    (List.range n).countP (fun i => ta.contains i) = ta.length := by
  rw [List.countP_eq_length_filter]
  have hnd2 : ((List.range n).filter (fun i => ta.contains i)).Nodup :=
    (List.nodup_range n).filter _
  have hperm : ((List.range n).filter (fun i => ta.contains i)).Perm ta := by
    rw [List.perm_ext_iff_of_nodup hnd2 hnd]
    intro a
    simp only [List.mem_filter, List.mem_range]
    constructor
    · rintro ⟨-, hc⟩
      exact (contains_iff_mem_nat ta a).mp hc
    · intro ha
      exact ⟨hlt a ha, (contains_iff_mem_nat ta a).mpr ha⟩
  exact hperm.length_eq

/-- C10: `autoFill` leaves exactly `min(onCourt, numPlayers)` players active, they are the
players with the smallest accrued `totalMs` with ties resolved in favor of the earlier
roster index (the stable sort of the source), every other player ends inactive regardless
of its previous flag, and no accrual data changes. -/
theorem C10_autofill (s : GameState) (hn : s.players.length = s.numPlayers) :
    (((autoFill s).players.filter (fun p => p.active)).length = min s.onCourt s.numPlayers)
    ∧ (∀ i j, i < s.players.length → j < s.players.length →
        ((autoFill s).players.getD i default).active = true →
        ((autoFill s).players.getD j default).active = false →
        ((s.players.getD i default).totalMs < (s.players.getD j default).totalMs
          ∨ ((s.players.getD i default).totalMs = (s.players.getD j default).totalMs
              ∧ i < j)))
    ∧ (∀ i, i < s.players.length →
        (autoFill s).players.getD i default
          = { s.players.getD i default with
              active := ((autoFill s).players.getD i default).active }) := by
  have hplayers : (autoFill s).players = (List.range s.players.length).map (fun i =>
      { s.players.getD i default with active := (toActivate s).contains i }) := rfl
  have hperm : (byTime s).Perm (sortPairs s) := List.perm_insertionSort _ _
  have hsorted : List.Sorted byTimeLE (byTime s) := List.sorted_insertionSort _ _
  have hmem_pairs : ∀ x ∈ sortPairs s,
      x.1 < s.players.length ∧ x = (x.1, (s.players.getD x.1 default).totalMs) := by
    intro x hx
    obtain ⟨i, hi, rfl⟩ := List.mem_map.mp hx
    exact ⟨List.mem_range.mp hi, rfl⟩
  have hmem_pairs2 : ∀ i, i < s.players.length →
      (i, (s.players.getD i default).totalMs) ∈ sortPairs s := fun i hi =>
    List.mem_map.mpr ⟨i, List.mem_range.mpr hi, rfl⟩
  have hfst : (sortPairs s).map Prod.fst = List.range s.players.length := by
    rw [sortPairs, List.map_map]
    simp [Function.comp_def]
  have hfst_perm : ((byTime s).map Prod.fst).Perm (List.range s.players.length) := by
    rw [← hfst]
    exact hperm.map Prod.fst
  have hta_nodup : (toActivate s).Nodup := by
    rw [toActivate, List.map_take]
    exact List.Nodup.sublist (List.take_sublist _ _)
      (hfst_perm.nodup_iff.mpr (List.nodup_range _))
  have hta_lt : ∀ x ∈ toActivate s, x < s.players.length := by
    intro x hx
    rw [toActivate, List.map_take] at hx
    exact List.mem_range.mp (hfst_perm.mem_iff.mp (List.mem_of_mem_take hx))
  have hta_len : (toActivate s).length = min s.onCourt s.players.length := by
    rw [toActivate, List.length_map, List.length_take, hperm.length_eq, sortPairs,
      List.length_map, List.length_range]
  have hactive : ∀ i, i < s.players.length →
      ((autoFill s).players.getD i default).active = (toActivate s).contains i := by
    intro i hi
    rw [hplayers, range_map_getD _ _ _ _ hi]
  refine ⟨?_, ?_, ?_⟩
  · rw [hplayers, ← List.countP_eq_length_filter, List.countP_map]
    rw [show ((fun p : Player => p.active) ∘ (fun i => { s.players.getD i default with
        active := (toActivate s).contains i })) = fun i => (toActivate s).contains i from rfl]
    rw [countP_range_contains _ _ hta_nodup hta_lt, hta_len, hn]
  · intro i j hi hj hai haj
    rw [hactive i hi] at hai
    rw [hactive j hj] at haj
    have hi_mem : i ∈ toActivate s := (contains_iff_mem_nat _ _).mp hai
    have hj_nmem : j ∉ toActivate s := by
      intro hmem
      rw [(contains_iff_mem_nat _ _).mpr hmem] at haj
      exact absurd haj (by decide)
    obtain ⟨pr, hpr_take, hpr_fst⟩ :=
      List.mem_map.mp (by rw [toActivate] at hi_mem; exact hi_mem)
    have hpr_byTime : pr ∈ byTime s := List.mem_of_mem_take hpr_take
    have hpr_eq : pr = (i, (s.players.getD i default).totalMs) := by
      have h2 := (hmem_pairs pr (hperm.mem_iff.mp hpr_byTime)).2
      rw [h2, hpr_fst]
    have hj_pair_byTime : (j, (s.players.getD j default).totalMs) ∈ byTime s :=
      hperm.mem_iff.mpr (hmem_pairs2 j hj)
    have hj_drop : (j, (s.players.getD j default).totalMs)
        ∈ (byTime s).drop s.onCourt := by
      have hsplit : byTime s = (byTime s).take s.onCourt ++ (byTime s).drop s.onCourt :=
        (List.take_append_drop _ _).symm
      rcases List.mem_append.mp (hsplit ▸ hj_pair_byTime) with h | h
      · exfalso
        apply hj_nmem
        rw [toActivate]
        exact List.mem_map.mpr ⟨(j, (s.players.getD j default).totalMs), h, rfl⟩
      · exact h
    have hrel : byTimeLE pr (j, (s.players.getD j default).totalMs) := by
      have hpw : List.Pairwise byTimeLE
          ((byTime s).take s.onCourt ++ (byTime s).drop s.onCourt) := by
        rw [List.take_append_drop]
        exact hsorted
      exact (List.pairwise_append.mp hpw).2.2 pr hpr_take _ hj_drop
    rw [hpr_eq] at hrel
    rcases hrel with h | ⟨heq, hle⟩
    · exact Or.inl h
    · right
      refine ⟨heq, ?_⟩
      rcases lt_or_eq_of_le hle with h | h
      · exact h
      · have hij : i = j := h
        exact absurd (hij ▸ hi_mem) hj_nmem
  · intro i hi
    rw [hplayers, range_map_getD _ _ _ _ hi]

/-- Witness for C10 at the initial state: the hypothesis holds (11 players configured, 11 in
the roster) and exactly `min(5, 11) = 5` players are active after autoFill. -/
theorem C10_autofill_witness :
    ((autoFill initState).players.filter (fun p => p.active)).length = min 5 11 :=
  (C10_autofill initState rfl).1

end PlayingTime